import Mathlib

/-!
A shallow embedding of the shunting-yard repository: the `Stack` and `Queue`
containers (`src/stack.rs`, `src/queue.rs`) and the `ShuntingYard` conversion
algorithm (`src/shunting_yard.rs`), together with theorems settling the
specification's claims about them.

Modelling conventions:
* Rust `i32` precedences become `Int` (the algorithm never overflows: it only
  compares precedences, so modular arithmetic plays no role).
* The `Vec<T>` backing both containers becomes `List T`.  For `Stack` the head
  of the list is the TOP of the stack (the source keeps the top at the end of
  its `Vec`; only the LIFO interface is observable).  For `Queue` the head of
  the list is the FRONT of the queue, matching the source `Vec` order.
* The panicking operations (`Stack::peek`, `Stack::pop`, `Queue::dequeue`,
  `Queue::peek`) are fallible: they return `Option`, with `none` standing for
  the panic (the fatal fault).  The non-failing total versions used inside the
  algorithm are justified against the fallible ones in `produce_postfixChecked`
  and the no-fault theorem.
-/

/-- `enum Assoc { Left, None, Right }` from `src/shunting_yard.rs`. -/
inductive Assoc where
  | Left
  | None
  | Right
deriving DecidableEq

/-- The `TokenProperties` trait from `src/shunting_yard.rs`: every expression
token exposes a precedence, and an associativity that defaults to
`Assoc::Left` when the implementor does not override it. -/
class TokenProperties (T : Type) where
  precedence : T → Int
  associativity : T → Assoc := fun _ => Assoc.Left

/-- `Stack<T>` from `src/stack.rs`: a LIFO wrapper around a `Vec<T>`.  Here
`items` lists the elements top-first (most recently pushed at the head). -/
structure Stack (T : Type) where
  items : List T
deriving DecidableEq

/-- `Stack::default`: the freshly constructed, empty stack. -/
def Stack.default {T : Type} : Stack T := ⟨[]⟩

/-- `Stack::is_empty`. -/
def Stack.is_empty {T : Type} (s : Stack T) : Bool := s.items.isEmpty

/-- `Stack::peek`: returns the top element; `none` models the
`panic!("cannot peek into an empty stack")` on an empty stack. -/
def Stack.peek {T : Type} (s : Stack T) : Option T := s.items.head?

/-- `Stack::pop`: removes and returns the top element; `none` models the
`expect("cannot pop from an empty stack")` panic on an empty stack. -/
def Stack.pop {T : Type} (s : Stack T) : Option (T × Stack T) :=
  match s.items with
  | [] => none
  | x :: xs => some (x, ⟨xs⟩)

/-- `Stack::push`: appends to the top (the head of `items`). -/
def Stack.push {T : Type} (s : Stack T) (x : T) : Stack T := ⟨x :: s.items⟩

/-- `Queue<T>` from `src/queue.rs`: a FIFO wrapper around a `Vec<T>`; `items`
lists the elements front-first, exactly as the source `Vec` does. -/
structure Queue (T : Type) where
  items : List T
deriving DecidableEq

/-- `Queue::new`. -/
def Queue.new {T : Type} (input : List T) : Queue T := ⟨input⟩

/-- `Queue::default`: the freshly constructed, empty queue. -/
def Queue.default {T : Type} : Queue T := ⟨[]⟩

/-- `Queue::is_empty`. -/
def Queue.is_empty {T : Type} (q : Queue T) : Bool := q.items.isEmpty

/-- `Queue::enqueue`: appends at the back. -/
def Queue.enqueue {T : Type} (q : Queue T) (x : T) : Queue T := ⟨q.items ++ [x]⟩

/-- `Queue::dequeue`: removes and returns the front element (`self.0.remove(0)`);
`none` models the `panic!("cannot dequeue from an empty queue")`. -/
def Queue.dequeue {T : Type} (q : Queue T) : Option (T × Queue T) :=
  match q.items with
  | [] => none
  | x :: xs => some (x, ⟨xs⟩)

/-- `Queue::peek`: returns the front element; `none` models the
`expect("cannot peek into an empty queue")` panic. -/
def Queue.peek {T : Type} (q : Queue T) : Option T := q.items.head?

/-- `ShuntingYard::should_stack` from `src/shunting_yard.rs` lines 81-84:
the stacked operator is emitted when its precedence is strictly greater than
the current token's, or equal with left associativity. -/
def should_stack {T : Type} [TokenProperties T] (cur_top : T) (cur_prec : Int) : Bool :=
  decide (TokenProperties.precedence cur_top > cur_prec) ||
    (decide (TokenProperties.precedence cur_top = cur_prec) &&
      decide (TokenProperties.associativity cur_top = Assoc.Left))

/-- The inner `while !operators.is_empty()` loop of `produce_postfix`
(lines 62-68): while the top of the operator stack satisfies `should_stack`
against the current token's precedence, pop it and enqueue it into `parsed`.
`ops` is the operator stack's contents, top-first. -/
def drainOps {T : Type} [TokenProperties T] (parsed : Queue T) (ops : List T) (prec : Int) :
    Queue T × Stack T :=
  match ops with
  | [] => (parsed, ⟨[]⟩)
  | top :: rest =>
    if should_stack top prec then drainOps (parsed.enqueue top) rest prec
    else (parsed, ⟨top :: rest⟩)

/-- One iteration of the `while let Some(token) = tokens.next()` loop of
`produce_postfix` (lines 48-71): an operand (precedence 0) is enqueued
directly; otherwise the stack is drained per `should_stack` and the token is
pushed onto the operator stack. -/
def shuntStep {T : Type} [TokenProperties T] (st : Queue T × Stack T) (token : T) :
    Queue T × Stack T :=
  if TokenProperties.precedence token = 0 then (st.1.enqueue token, st.2)
  else
    let res := drainOps st.1 st.2.items (TokenProperties.precedence token)
    (res.1, res.2.push token)

/-- The state (output queue, operator stack) after the main loop of
`produce_postfix` has consumed all input tokens, starting from the fresh
`Queue::default` and `Stack::default`. -/
def shuntRun {T : Type} [TokenProperties T] (tokens : List T) : Queue T × Stack T :=
  tokens.foldl shuntStep (Queue.default, Stack.default)

/-- The final `while !operators.is_empty()` flush of `produce_postfix`
(lines 74-76): pop every remaining operator, in LIFO order, enqueuing each
into the output.  `ops` is the operator stack's contents, top-first. -/
def flushOps {T : Type} (parsed : Queue T) (ops : List T) : Queue T :=
  match ops with
  | [] => parsed
  | top :: rest => flushOps (parsed.enqueue top) rest

/-- `ShuntingYard::produce_postfix` (lines 43-79): run the main loop over the
input tokens, then flush the remaining operators. -/
def produce_postfix {T : Type} [TokenProperties T] (tokens : List T) : Queue T :=
  let st := shuntRun tokens
  flushOps st.1 st.2.items

/-- The `Value` enum of the test module of `src/shunting_yard.rs`. -/
inductive Value where
  | Int (n : Int)
deriving DecidableEq

/-- The `Token` enum of the test module of `src/shunting_yard.rs`. -/
inductive Token where
  | Value (v : Value)
  | Minus
  | Multiply
  | Plus
deriving DecidableEq

/-- The test module's `impl TokenProperties for Token`: only `precedence` is
given; `associativity` keeps the trait default (`Assoc::Left`). -/
instance : TokenProperties Token where
  precedence := fun t =>
    match t with
    | Token.Minus => 1
    | Token.Multiply => 2
    | Token.Plus => 1
    | _ => 0

/-- A token is an operand exactly when its precedence is 0 (line 51 of
`src/shunting_yard.rs`). -/
def isOperand {T : Type} [TokenProperties T] (t : T) : Bool :=
  decide (TokenProperties.precedence t = 0)

/-- Flushing enqueues the operator list at the back of the queue, preserving
its top-first order. -/
theorem flushOps_items {T : Type} :
    ∀ (ops : List T) (parsed : Queue T), (flushOps parsed ops).items = parsed.items ++ ops := by
  intro ops
  induction ops with
  | nil => intro parsed; simp [flushOps]
  | cons top rest ih =>
    intro parsed
    simp [flushOps, ih, Queue.enqueue]

/-- The drain loop only moves elements from the stack to the queue: the
concatenation queue-then-stack is unchanged. -/
theorem drainOps_append {T : Type} [TokenProperties T] :
    ∀ (ops : List T) (parsed : Queue T) (prec : Int),
      (drainOps parsed ops prec).1.items ++ (drainOps parsed ops prec).2.items =
        parsed.items ++ ops := by
  intro ops
  induction ops with
  | nil => intro parsed prec; simp [drainOps]
  | cons top rest ih =>
    intro parsed prec
    by_cases h : should_stack top prec = true
    · simp [drainOps, h, ih, Queue.enqueue]
    · simp [drainOps, h]

/-- One loop iteration permutes queue-concatenated-with-stack into the old
contents followed by the consumed token. -/
theorem shuntStep_perm {T : Type} [TokenProperties T] (st : Queue T × Stack T) (token : T) :
    ((shuntStep st token).1.items ++ (shuntStep st token).2.items).Perm
      (st.1.items ++ st.2.items ++ [token]) := by
  by_cases h : TokenProperties.precedence token = 0
  · simp only [shuntStep, if_pos h, Queue.enqueue]
    rw [List.append_assoc, List.append_assoc]
    exact List.Perm.append_left st.1.items List.perm_append_comm
  · simp only [shuntStep, if_neg h, Stack.push]
    have hd := drainOps_append st.2.items st.1 (TokenProperties.precedence token)
    rw [← hd, List.append_assoc]
    exact List.Perm.append_left _ (List.perm_append_singleton token _).symm

/-- Running the main loop from any state appends (up to permutation) the
consumed tokens to the queue-plus-stack contents. -/
theorem foldl_shuntStep_perm {T : Type} [TokenProperties T] :
    ∀ (tokens : List T) (st : Queue T × Stack T),
      ((tokens.foldl shuntStep st).1.items ++ (tokens.foldl shuntStep st).2.items).Perm
        (st.1.items ++ st.2.items ++ tokens) := by
  intro tokens
  induction tokens with
  | nil => intro st; simp
  | cons t ts ih =>
    intro st
    have h1 := ih (shuntStep st t)
    have h2 := (shuntStep_perm st t).append_right ts
    have he : (st.1.items ++ st.2.items ++ [t]) ++ ts =
        st.1.items ++ st.2.items ++ (t :: ts) := by simp
    simp only [List.foldl_cons]
    exact h1.trans (he ▸ h2)

/-- C2: `should_stack(top, current_precedence)` holds exactly when the top's
precedence is strictly greater than `current_precedence`, or equal with
associativity `Left`; in particular it is false for an equal-precedence top
whose associativity is `Right` or `None`. -/
theorem should_stack_iff {T : Type} [TokenProperties T] (cur_top : T) (cur_prec : Int) :
    should_stack cur_top cur_prec = true ↔
      (TokenProperties.precedence cur_top > cur_prec ∨
        (TokenProperties.precedence cur_top = cur_prec ∧
          TokenProperties.associativity cur_top = Assoc.Left)) := by
  simp [should_stack]

/-- C3: on the test input `[1, +, 2, *, 3, -, 4]` (precedences `+` = `-` = 1,
`*` = 2, all left-associative, values precedence 0), `produce_postfix`
returns the queue `[1, 2, 3, *, +, 4, -]`, as the repository's
`test_shunting_yard` asserts. -/
theorem test_shunting_yard :
    produce_postfix
        [Token.Value (Value.Int 1), Token.Plus, Token.Value (Value.Int 2),
          Token.Multiply, Token.Value (Value.Int 3), Token.Minus,
          Token.Value (Value.Int 4)] =
      Queue.new
        [Token.Value (Value.Int 1), Token.Value (Value.Int 2),
          Token.Value (Value.Int 3), Token.Multiply, Token.Plus,
          Token.Value (Value.Int 4), Token.Minus] := by
  decide

/-- C6: on a freshly constructed (empty) `Stack`, `peek` and `pop` fault
(return `none`, the model of the fatal panic), and on a freshly constructed
(empty) `Queue`, `dequeue` and `peek` fault likewise; none of them produces a
default or sentinel value. -/
theorem empty_container_fault (T : Type) :
    (Stack.default : Stack T).peek = none ∧
      (Stack.default : Stack T).pop = none ∧
      (Queue.default : Queue T).dequeue = none ∧
      (Queue.default : Queue T).peek = none :=
  ⟨rfl, rfl, rfl, rfl⟩

/-- C7: a `TokenProperties` implementation that supplies only `precedence`
and leaves `associativity` to the trait default answers `Assoc.Left` for
every token. -/
theorem associativity_default_left (T : Type) (p : T → Int) (t : T) :
    @TokenProperties.associativity T { precedence := p } t = Assoc.Left :=
  rfl

/-- C1: the queue returned by `produce_postfix` is a permutation of the input
token sequence (every input token exactly once), and in particular has the
same length. -/
theorem produce_postfix_perm_length {T : Type} [TokenProperties T] (tokens : List T) :
    (( produce_postfix tokens).items).Perm tokens ∧
      ( produce_postfix tokens).items.length = tokens.length := by
  have hrun := foldl_shuntStep_perm tokens (Queue.default, Stack.default)
  have hout : ( produce_postfix tokens).items =
      (shuntRun tokens).1.items ++ (shuntRun tokens).2.items := by
    simp [ produce_postfix, flushOps_items]
  have hperm : (( produce_postfix tokens).items).Perm tokens := by
    rw [hout]
    simpa [shuntRun, Queue.default, Stack.default] using hrun
  exact ⟨hperm, hperm.length_eq⟩

/-- C4: once the main loop has consumed the whole input, the operators still
on the stack are flushed to the tail of the output in LIFO order: the result
of `produce_postfix` is exactly the loop's output queue followed by the
stack's contents top-first (most recently pushed first), and flushing any
stack onto any queue appends its top-first contents at the back. -/
theorem produce_postfix_unwind {T : Type} [TokenProperties T] (tokens : List T) :
    produce_postfix tokens =
        Queue.new ((shuntRun tokens).1.items ++ (shuntRun tokens).2.items) ∧
      ∀ (parsed : Queue T) (ops : List T),
        (flushOps parsed ops).items = parsed.items ++ ops := by
  constructor
  · show flushOps (shuntRun tokens).1 (shuntRun tokens).2.items =
      Queue.new ((shuntRun tokens).1.items ++ (shuntRun tokens).2.items)
    rw [Queue.new, ← flushOps_items (shuntRun tokens).2.items (shuntRun tokens).1]
  · intro parsed ops
    exact flushOps_items ops parsed

/-- The drain loop never changes the operand subsequence of the output queue
(the drained tokens all come off the operator stack, whose tokens have
nonzero precedence), and every token it leaves on the stack came from the
stack. -/
theorem drainOps_inv {T : Type} [TokenProperties T] :
    ∀ (ops : List T) (parsed : Queue T) (prec : Int),
      (∀ t ∈ ops, TokenProperties.precedence t ≠ 0) →
        ((drainOps parsed ops prec).1.items.filter isOperand =
            parsed.items.filter isOperand ∧
          ∀ t ∈ (drainOps parsed ops prec).2.items, TokenProperties.precedence t ≠ 0) := by
  intro ops
  induction ops with
  | nil => intro parsed prec h; simp [drainOps]
  | cons top rest ih =>
    intro parsed prec h
    by_cases hs : should_stack top prec = true
    · have htop : TokenProperties.precedence top ≠ 0 := h top (by simp)
      have hrest : ∀ t ∈ rest, TokenProperties.precedence t ≠ 0 := fun t ht => h t (by simp [ht])
      have hrec := ih (parsed.enqueue top) prec hrest
      simp only [drainOps, if_pos hs]
      refine ⟨?_, hrec.2⟩
      rw [hrec.1]
      simp [Queue.enqueue, List.filter_append, isOperand, htop]
    · have heq : drainOps parsed (top :: rest) prec = (parsed, ⟨top :: rest⟩) := by
        simp only [drainOps, if_neg hs]
      rw [heq]
      exact ⟨rfl, h⟩

/-- One loop iteration preserves the joint invariant: the output queue's
operand subsequence equals the processed input's operand subsequence, and
every token on the operator stack has nonzero precedence. -/
theorem shuntStep_inv {T : Type} [TokenProperties T] (st : Queue T × Stack T)
    (token : T) (processed : List T)
    (hq : st.1.items.filter isOperand = processed.filter isOperand)
    (hs : ∀ t ∈ st.2.items, TokenProperties.precedence t ≠ 0) :
    (shuntStep st token).1.items.filter isOperand =
        (processed ++ [token]).filter isOperand ∧
      ∀ t ∈ (shuntStep st token).2.items, TokenProperties.precedence t ≠ 0 := by
  by_cases h : TokenProperties.precedence token = 0
  · simp only [shuntStep, if_pos h, Queue.enqueue]
    refine ⟨?_, hs⟩
    simp [List.filter_append, hq, isOperand, h]
  · have hd := drainOps_inv st.2.items st.1 (TokenProperties.precedence token) hs
    simp only [shuntStep, if_neg h, Stack.push]
    constructor
    · rw [hd.1, hq]
      simp [List.filter_append, isOperand, h]
    · intro t ht
      rcases List.mem_cons.mp ht with heq | hmem
      · subst heq; exact h
      · exact hd.2 t hmem

/-- The main loop, run from a state satisfying the joint invariant, ends in a
state satisfying it for the extended processed input. -/
theorem foldl_shuntStep_inv {T : Type} [TokenProperties T] :
    ∀ (tokens : List T) (st : Queue T × Stack T) (processed : List T),
      st.1.items.filter isOperand = processed.filter isOperand →
      (∀ t ∈ st.2.items, TokenProperties.precedence t ≠ 0) →
        ((tokens.foldl shuntStep st).1.items.filter isOperand =
            (processed ++ tokens).filter isOperand ∧
          ∀ t ∈ (tokens.foldl shuntStep st).2.items, TokenProperties.precedence t ≠ 0) := by
  intro tokens
  induction tokens with
  | nil => intro st processed hq hs; simpa using ⟨hq, hs⟩
  | cons t ts ih =>
    intro st processed hq hs
    have hstep := shuntStep_inv st t processed hq hs
    have hrec := ih (shuntStep st t) (processed ++ [t]) hstep.1 hstep.2
    simpa using hrec

/-- C5: the subsequence of output tokens with precedence 0 (the operands) is
exactly the subsequence of input tokens with precedence 0, in the same
relative order. -/
theorem produce_postfix_operand_order {T : Type} [TokenProperties T] (tokens : List T) :
    ( produce_postfix tokens).items.filter isOperand = tokens.filter isOperand := by
  have hinv := foldl_shuntStep_inv tokens (Queue.default, Stack.default) [] rfl
    (by intro t ht; simp [Stack.default] at ht)
  have hout : ( produce_postfix tokens).items =
      (shuntRun tokens).1.items ++ (shuntRun tokens).2.items := by
    show (flushOps (shuntRun tokens).1 (shuntRun tokens).2.items).items = _
    exact flushOps_items _ _
  rw [hout, List.filter_append]
  have h2 : (shuntRun tokens).2.items.filter isOperand = [] := by
    rw [List.filter_eq_nil_iff]
    intro t ht
    have := hinv.2 t ht
    simp [isOperand, this]
  have h1 : (shuntRun tokens).1.items.filter isOperand = tokens.filter isOperand := by
    have := hinv.1
    simpa [shuntRun] using this
  rw [h1, h2, List.append_nil]

/-- C9: at every point between iterations of the main loop of
`produce_postfix` (that is, after any list of consumed tokens), every token
on the operator stack has nonzero precedence: precedence-0 tokens are
enqueued directly and never pushed. -/
theorem operator_stack_nonzero {T : Type} [TokenProperties T] (tokens : List T) (t : T)
    (ht : t ∈ (shuntRun tokens).2.items) : TokenProperties.precedence t ≠ 0 := by
  have hinv := foldl_shuntStep_inv tokens (Queue.default, Stack.default) [] rfl
    (by intro u hu; simp [Stack.default] at hu)
  exact hinv.2 t ht

/-- Witness for C9 at a concrete input: after consuming `[+]`, the operator
`+` is on the stack and its precedence is nonzero. -/
theorem operator_stack_nonzero_witness :
    Token.Plus ∈ (shuntRun [Token.Plus]).2.items ∧
      TokenProperties.precedence Token.Plus ≠ 0 :=
  ⟨by decide, operator_stack_nonzero [Token.Plus] Token.Plus (by decide)⟩

/-- C10: a token with negative precedence is classified as an operator, not
an operand: the loop body routes it through the `should_stack` drain and
pushes it onto the operator stack, where it becomes the new top. -/
theorem negative_precedence_operator {T : Type} [TokenProperties T]
    (st : Queue T × Stack T) (token : T)
    (h : TokenProperties.precedence token < 0) :
    shuntStep st token =
        ((drainOps st.1 st.2.items (TokenProperties.precedence token)).1,
          (drainOps st.1 st.2.items (TokenProperties.precedence token)).2.push token) ∧
      (shuntStep st token).2.peek = some token := by
  have hne : TokenProperties.precedence token ≠ 0 := ne_of_lt h
  constructor
  · simp only [shuntStep, if_neg hne]
  · simp only [shuntStep, if_neg hne, Stack.push, Stack.peek]
    rfl

/-- A token type with a negative-precedence operator, outside the spec's
non-negative contract, used only to witness the negative-precedence claim. -/
inductive NegTok where
  | Neg
  | Num
deriving DecidableEq

/-- `NegTok.Neg` has precedence -1; `associativity` keeps the default. -/
instance : TokenProperties NegTok where
  precedence := fun t =>
    match t with
    | NegTok.Neg => -1
    | NegTok.Num => 0

/-- Witness for C10 at a concrete input: starting from the fresh state, the
precedence -1 token `NegTok.Neg` is drained-and-pushed and ends on top of
the operator stack. -/
theorem negative_precedence_operator_witness :
    shuntStep ((Queue.default : Queue NegTok), Stack.default) NegTok.Neg =
        ((drainOps (Queue.default : Queue NegTok) (Stack.default : Stack NegTok).items
            (TokenProperties.precedence NegTok.Neg)).1,
          (drainOps (Queue.default : Queue NegTok) (Stack.default : Stack NegTok).items
            (TokenProperties.precedence NegTok.Neg)).2.push NegTok.Neg) ∧
      (shuntStep ((Queue.default : Queue NegTok), Stack.default) NegTok.Neg).2.peek =
        some NegTok.Neg :=
  negative_precedence_operator (Queue.default, Stack.default) NegTok.Neg (by decide)

/-- The inner drain loop of `produce_postfix`, written against the fallible
container operations: every `peek`/`pop` goes through the `Option`-returning
API, and a `none` result (the panic) aborts the whole computation with
`none`.  `fuel` bounds the number of loop iterations; running out of fuel
with a non-empty stack also yields `none`, so a `some` result certifies both
termination of the loop and absence of any empty-container fault. -/
def drainOpsChecked {T : Type} [TokenProperties T] (fuel : Nat) (parsed : Queue T)
    (s : Stack T) (prec : Int) : Option (Queue T × Stack T) :=
  match fuel with
  | 0 => if s.is_empty then some (parsed, s) else none
  | Nat.succ fuel =>
    if s.is_empty then some (parsed, s)
    else
      match s.peek with
      | none => none
      | some top =>
        if should_stack top prec then
          match s.pop with
          | none => none
          | some res => drainOpsChecked fuel (parsed.enqueue res.1) res.2 prec
        else some (parsed, s)

/-- The final flush loop of `produce_postfix`, written against the fallible
`Stack.pop`; same fuel discipline as `drainOpsChecked`. -/
def flushOpsChecked {T : Type} (fuel : Nat) (parsed : Queue T) (s : Stack T) :
    Option (Queue T) :=
  match fuel with
  | 0 => if s.is_empty then some parsed else none
  | Nat.succ fuel =>
    if s.is_empty then some parsed
    else
      match s.pop with
      | none => none
      | some res => flushOpsChecked fuel (parsed.enqueue res.1) res.2

/-- One main-loop iteration against the fallible container operations. -/
def shuntStepChecked {T : Type} [TokenProperties T] (st : Queue T × Stack T) (token : T) :
    Option (Queue T × Stack T) :=
  if TokenProperties.precedence token = 0 then some (st.1.enqueue token, st.2)
  else
    match drainOpsChecked st.2.items.length st.1 st.2 (TokenProperties.precedence token) with
    | none => none
    | some res => some (res.1, res.2.push token)

/-- `produce_postfix` against the fallible container operations: `none`
models a panic escaping (or the loops failing to terminate). -/
def produce_postfixChecked {T : Type} [TokenProperties T] (tokens : List T) :
    Option (Queue T) :=
  match tokens.foldlM shuntStepChecked (Queue.default, Stack.default) with
  | none => none
  | some st => flushOpsChecked st.2.items.length st.1 st.2

/-- With enough fuel, the checked drain loop never faults and agrees with
`drainOps`. -/
theorem drainOpsChecked_eq {T : Type} [TokenProperties T] :
    ∀ (ops : List T) (fuel : Nat) (parsed : Queue T) (prec : Int),
      ops.length ≤ fuel →
        drainOpsChecked fuel parsed ⟨ops⟩ prec = some (drainOps parsed ops prec) := by
  intro ops
  induction ops with
  | nil =>
    intro fuel parsed prec hf
    cases fuel <;> simp [drainOpsChecked, drainOps, Stack.is_empty]
  | cons top rest ih =>
    intro fuel parsed prec hf
    cases fuel with
    | zero => simp at hf
    | succ f =>
      have hrest : rest.length ≤ f := Nat.le_of_succ_le_succ (by simpa using hf)
      by_cases hs : should_stack top prec = true
      · simp [drainOpsChecked, drainOps, Stack.is_empty, Stack.peek, Stack.pop, hs,
          ih f (parsed.enqueue top) prec hrest]
      · simp [drainOpsChecked, drainOps, Stack.is_empty, Stack.peek, Stack.pop, hs]

/-- With enough fuel, the checked flush loop never faults and agrees with
`flushOps`. -/
theorem flushOpsChecked_eq {T : Type} :
    ∀ (ops : List T) (fuel : Nat) (parsed : Queue T),
      ops.length ≤ fuel →
        flushOpsChecked fuel parsed ⟨ops⟩ = some (flushOps parsed ops) := by
  intro ops
  induction ops with
  | nil =>
    intro fuel parsed hf
    cases fuel <;> simp [flushOpsChecked, flushOps, Stack.is_empty]
  | cons top rest ih =>
    intro fuel parsed hf
    cases fuel with
    | zero => simp at hf
    | succ f =>
      have hrest : rest.length ≤ f := Nat.le_of_succ_le_succ (by simpa using hf)
      simp [flushOpsChecked, flushOps, Stack.is_empty, Stack.pop,
        ih f (parsed.enqueue top) hrest]

/-- The checked main-loop iteration never faults and agrees with `shuntStep`. -/
theorem shuntStepChecked_eq {T : Type} [TokenProperties T] (st : Queue T × Stack T)
    (token : T) : shuntStepChecked st token = some (shuntStep st token) := by
  obtain ⟨q, s⟩ := st
  obtain ⟨ops⟩ := s
  by_cases h : TokenProperties.precedence token = 0
  · simp [shuntStepChecked, shuntStep, h]
  · simp [shuntStepChecked, shuntStep, h,
      drainOpsChecked_eq ops ops.length q (TokenProperties.precedence token) (Nat.le_refl _)]

/-- The checked main loop never faults and agrees with the total fold. -/
theorem foldlM_shuntStepChecked_eq {T : Type} [TokenProperties T] :
    ∀ (tokens : List T) (st : Queue T × Stack T),
      tokens.foldlM shuntStepChecked st = some (tokens.foldl shuntStep st) := by
  intro tokens
  induction tokens with
  | nil => intro st; rfl
  | cons t ts ih =>
    intro st
    simp only [List.foldlM_cons, List.foldl_cons, shuntStepChecked_eq st t]
    simpa using ih (shuntStep st t)

/-- C8: on every finite input (empty and unbalanced operator sequences
included), `produce_postfix` run against the fallible container operations
terminates with a value and never takes a panic branch of `Stack::pop` or
`Stack::peek` (every such call is guarded by the preceding non-emptiness
check), agreeing with the total `produce_postfix`; `Queue::dequeue` and
`Queue::peek` do not occur in it at all. -/
theorem produce_postfix_no_fault {T : Type} [TokenProperties T] (tokens : List T) :
    produce_postfixChecked tokens = some ( produce_postfix tokens) := by
  have hf := foldlM_shuntStepChecked_eq tokens (Queue.default, Stack.default)
  show (match tokens.foldlM shuntStepChecked (Queue.default, Stack.default) with
    | none => none
    | some st => flushOpsChecked st.2.items.length st.1 st.2) = some ( produce_postfix tokens)
  rw [hf]
  exact flushOpsChecked_eq _ _ _ (Nat.le_refl _)
